import Mathlib

/-!
Shallow embedding of `pythogic/automaton/DFA.py`.

Python sets and dicts are embedded as lists: a Python `set`/`frozenset` is a
list read up to membership (iteration picks the list order, standing in for
CPython's unspecified set iteration order), and a Python `dict` is an
association list with `List.lookup` (keys are unique in every dict the code
builds, and insertion keeps the key order exactly as CPython dicts do).
Python exceptions are embedded with `Except`: `ValueError` from
`DFA._check_input`, `KeyError` from an indexing `d[k]` on a missing key, and
`AssertionError` from the `assert` in `word_acceptance`.

State values that arise in the module are Python ints (original states and
the integer labels `minimize` assigns), `Sink` objects made by `complete`,
and `None` (the absent initial state); `St` has one constructor for each.
Python truthiness of those values (`if initial_state`, `if s_prime`) is
`St.truthy`: the int `0` and `None` are falsy, every `Sink` object is truthy.
-/

namespace Pythogic

/-- Symbols of an alphabet (`pythogic.base.Symbol` is an opaque hashable
token; `Nat` stands in for it). -/
abbrev Sym := Nat

/-- A Python value usable as a DFA state in this module: an int, a `Sink`
object (identified by a fresh id), or `None`. -/
inductive St where
  | i : Int → St
  | sk : Nat → St
  | nil : St
deriving DecidableEq

/-- Python truthiness of a state value: `0` and `None` are falsy, any other
int and every `Sink` object are truthy. -/
def St.truthy : St → Bool
  | St.i n => n != 0
  | St.sk _ => true
  | St.nil => false

/-- The Python exceptions the module can raise. -/
inductive Err where
  | valueError
  | keyError
  | assertionError
deriving DecidableEq

/-- The `DFA` object: `alphabet` embeds `Alphabet.symbols`, the two state
sets are lists read up to membership, and `transition_function` is the
nested dict `state -> (symbol -> state)` as an association list. An absent
initial state (Python `None`) is `St.nil`. -/
structure DFA where
  alphabet : List Sym
  states : List St
  initial_state : St
  accepting_states : List St
  transition_function : List (St × List (Sym × St))
deriving DecidableEq

/-- `k in d` for a Python dict. -/
def hasKey {α β : Type} [BEq α] (d : List (α × β)) (k : α) : Bool :=
  (d.lookup k).isSome

/-- `d[k]` for a Python dict: the value, or a `KeyError`. -/
def dictGet {α β : Type} [BEq α] (d : List (α × β)) (k : α) : Except Err β :=
  match d.lookup k with
  | some v => Except.ok v
  | none => Except.error Err.keyError

/-- `d[k] = v` for a Python dict: overwrite in place (keeping the key's
position, as CPython does) or append a new entry. -/
def assocSet {α β : Type} [BEq α] (d : List (α × β)) (k : α) (v : β) : List (α × β) :=
  match d with
  | [] => [(k, v)]
  | (k2, v2) :: rest => if k == k2 then (k2, v) :: rest else (k2, v2) :: assocSet rest k v

/-- `d.setdefault(s, {}); d[s][a] = q` on a nested dict. -/
def tfInsert (d : List (St × List (Sym × St))) (s : St) (a : Sym) (q : St) :
    List (St × List (Sym × St)) :=
  assocSet d s (assocSet ((d.lookup s).getD []) a q)

/-- `z.add(x)` on a Python set embedded as a list. -/
def insertIfAbsent (l : List St) (x : St) : List St :=
  if l.contains x then l else l ++ [x]

/-- `d.get(s, [])` then iterating the inner dict of `s`: the list of
`(symbol, next_state)` pairs leaving `s` (empty when `s` has no entry). -/
def succPairs (dfa : DFA) (s : St) : List (Sym × St) :=
  (dfa.transition_function.lookup s).getD []

/-- `tf[s][a] if s in tf and a in tf[s] else None` (`DFA.minimize`, lines
66 and 73). -/
def tfGet (tf : List (St × List (Sym × St))) (s : St) (a : Sym) : Option St :=
  match tf.lookup s with
  | none => none
  | some m => m.lookup a

/-- `DFA._check_input` (lines 28-35), including its two slips: the initial
state is only checked when truthy, and a transition entry is rejected only
when its symbol is outside the alphabet AND its target outside the states. -/
def check_input (alphabet : List Sym) (states : List St) (s0 : St)
    (accepting : List St) (tf : List (St × List (Sym × St))) : Except Err Unit :=
  if s0.truthy && !(states.contains s0) then Except.error Err.valueError
  else if accepting.any (fun s => !(states.contains s)) then Except.error Err.valueError
  else if tf.any (fun p => !(states.contains p.1) ||
      p.2.any (fun q => !(alphabet.contains q.1) && !(states.contains q.2))) then
    Except.error Err.valueError
  else Except.ok ()

/-- The `DFA.__init__` constructor: validate, then build the object. -/
def mkDFA (alphabet : List Sym) (states : List St) (s0 : St)
    (accepting : List St) (tf : List (St × List (Sym × St))) : Except Err DFA :=
  match check_input alphabet states s0 accepting tf with
  | Except.ok _ => Except.ok (DFA.mk alphabet states s0 accepting tf)
  | Except.error e => Except.error e

/-- The spec's construction invariants 1-3 (what "well-formed DFA" means):
the initial state is absent or belongs to `states`, accepting states belong
to `states`, and every transition triple references a known state, an
alphabet symbol, and a known target. -/
def Valid (d : DFA) : Prop :=
  (d.initial_state = St.nil ∨ d.initial_state ∈ d.states) ∧
  (∀ s ∈ d.accepting_states, s ∈ d.states) ∧
  (∀ p ∈ d.transition_function, p.1 ∈ d.states ∧
    ∀ q ∈ p.2, q.1 ∈ d.alphabet ∧ q.2 ∈ d.states)

instance (d : DFA) : Decidable (Valid d) := by
  unfold Valid
  infer_instance

/-- One past the largest sink id occurring in a state list. -/
def sinkIdBound : List St → Nat
  | [] => 0
  | St.sk k :: rest => max (k + 1) (sinkIdBound rest)
  | _ :: rest => sinkIdBound rest

/-- Modelled from the spec: the `Sink` class (`pythogic/automaton/misc.py`,
not under `src/`) whose instances `Sink()` are fresh objects, "a synthetic
sink state not present in `dfa.states`" compared by object identity; a fresh
sink id makes the new state distinct from every state in the list. -/
def freshSink (states : List St) : St := St.sk (sinkIdBound states)

/-- `DFA.complete` (lines 37-46): deep-copy the transition dict, and for
every state that HAS an entry append `action -> sink` for each alphabet
symbol missing from its inner dict (states without an entry, and the sink
itself, get nothing); add the sink to the states and rebuild via the
constructor. -/
def DFA.complete (dfa : DFA) : Except Err DFA :=
  let sink := freshSink dfa.states
  let transitions := dfa.transition_function.map (fun p =>
    (p.1, p.2 ++ (dfa.alphabet.filter (fun a => !(hasKey p.2 a))).map (fun a => (a, sink))))
  mkDFA dfa.alphabet (dfa.states ++ [sink]) dfa.initial_state dfa.accepting_states transitions

/-- The seed of `DFA.minimize`'s greatest fixpoint (lines 53-59): all pairs
of states that agree on acceptance status. -/
def zInit (dfa : DFA) : List (St × St) :=
  dfa.states.flatMap (fun s => dfa.states.filterMap (fun t =>
    if (dfa.accepting_states.contains s && dfa.accepting_states.contains t) ||
       (!(dfa.accepting_states.contains s) && !(dfa.accepting_states.contains t))
    then some (s, t) else none))

/-- The removal test of `DFA.minimize`'s refinement round (lines 64-78),
kept with its slips: a successor is acted on only when Python-truthy
(`if s_prime:` skips the falsy state `0`), and the other side must both
have a transition entry and land, under the same symbol, on a partner
kept in the current relation. The inner `tf[t][a] == t_prime` is embedded
as the optional lookup `tfGet` agreeing with `t_prime`; on the completed
automata `minimize` builds, `t in tf` implies the symbol is present, so
the optional lookup coincides with Python's indexing there. -/
def zRemove (dfa : DFA) (z : List (St × St)) (s t : St) : Bool :=
  dfa.alphabet.any (fun a =>
    (match tfGet dfa.transition_function s a with
     | none => false
     | some sp => sp.truthy &&
        !(hasKey dfa.transition_function t &&
          dfa.states.any (fun tp =>
            tfGet dfa.transition_function t a == some tp && z.contains (sp, tp)))) ||
    (match tfGet dfa.transition_function t a with
     | none => false
     | some tp => tp.truthy &&
        !(hasKey dfa.transition_function s &&
          dfa.states.any (fun sp =>
            tfGet dfa.transition_function s a == some sp && z.contains (sp, tp)))))

/-- One refinement round (lines 61-78): every pair of `z_current` is tested
against the snapshot `z_current`, and the failing ones are dropped from the
copy `z_next`, so a round is exactly a filter of the snapshot. -/
def zRefine (dfa : DFA) (z : List (St × St)) : List (St × St) :=
  z.filter (fun p => !(zRemove dfa z p.1 p.2))

/-- The `while z_current != z_next` loop of `DFA.minimize` run to its
fixpoint. The fuel only bounds the number of rounds: a round short of the
fixpoint strictly shrinks the list (`zRefine` is a filter), so starting
with `length + 1` rounds the loop always stabilises before the fuel runs
out, exactly like the unbounded Python loop. -/
def zFixAux (dfa : DFA) : Nat → List (St × St) → List (St × St)
  | 0, z => z
  | Nat.succ n, z =>
    let z2 := zRefine dfa z
    if z2 == z then z else zFixAux dfa n z2

/-- The stabilised relation `z_current` after the refinement loop. -/
def zFix (dfa : DFA) (z : List (St × St)) : List (St × St) :=
  zFixAux dfa (z.length + 1) z

/-- A total order key on state values, used to read a Python `frozenset` of
states canonically. -/
def stKey : St → Nat × Int
  | St.i n => (0, n)
  | St.sk k => (1, Int.ofNat k)
  | St.nil => (2, 0)

/-- Comparison of state values through `stKey`. -/
def stLe (a b : St) : Bool :=
  (stKey a).1 < (stKey b).1 || ((stKey a).1 == (stKey b).1 && decide ((stKey a).2 ≤ (stKey b).2))

/-- Insertion into a list sorted by `stLe`. -/
def sortIns (x : St) : List St → List St
  | [] => [x]
  | y :: rest => if stLe x y then x :: y :: rest else y :: sortIns x rest

/-- Insertion sort by `stLe`. -/
def stSort : List St → List St
  | [] => []
  | x :: rest => sortIns x (stSort rest)

/-- A Python `frozenset` of states as a canonical list: deduplicated and
sorted, so two frozensets are equal exactly when the lists are. -/
def canonSet (l : List St) : List St := stSort l.dedup

/-- `state2equiv_class.setdefault(s, set()).add(t)` (line 82). -/
def addPair (m : List (St × List St)) (s t : St) : List (St × List St) :=
  match m.lookup s with
  | none => m ++ [(s, [t])]
  | some cls => assocSet m s (if cls.contains t then cls else cls ++ [t])

/-- `state2equiv_class` (lines 80-83): fold the stabilised pairs into a
dict from state to its class, then freeze each class canonically. -/
def classMapOf (z : List (St × St)) : List (St × List St) :=
  (z.foldl (fun m p => addPair m p.1 p.2) []).map (fun p => (p.1, canonSet p.2))

/-- `equiv_class2new_state` (lines 85-86): the distinct classes, each
assigned a fresh integer label in enumeration order. -/
def classLabels (cm : List (St × List St)) : List (List St × St) :=
  ((cm.map (fun p => p.2)).dedup).enum.map (fun p => (p.2, St.i (Int.ofNat p.1)))

/-- `equiv_class2new_state[state2equiv_class[s]]`: both dict lookups, each
raising `KeyError` on a missing key (the lookup that fails in `minimize`
when the initial state is `None`, line 98). -/
def stateLabel (cm : List (St × List St)) (labels : List (List St × St)) (s : St) :
    Except Err St := do
  let c ← dictGet cm s
  dictGet labels c

/-- `DFA.minimize` (lines 48-98): complete the input, run the pair
refinement to its fixpoint, label the classes, rebuild the transition dict
and accepting set through the class labels, and construct the quotient with
`class(initial_state)` as initial state. -/
def DFA.minimize (orig : DFA) : Except Err DFA := do
  let dfa ← DFA.complete orig
  let z := zFix dfa (zInit dfa)
  let cm := classMapOf z
  let labels := classLabels cm
  let ntf ← dfa.transition_function.foldlM (fun acc p => do
      let ns ← stateLabel cm labels p.1
      p.2.foldlM (fun acc2 q => do
          let nq ← stateLabel cm labels q.2
          pure (tfInsert acc2 ns q.1 nq)) acc)
    ([] : List (St × List (Sym × St)))
  let nfin ← dfa.accepting_states.foldlM (fun acc s => do
      let ns ← stateLabel cm labels s
      pure (insertIfAbsent acc ns)) ([] : List St)
  let ninit ← stateLabel cm labels dfa.initial_state
  mkDFA dfa.alphabet (labels.map (fun p => p.2)) ninit nfin ntf

/-- One round of `DFA.reachable`'s least fixpoint (lines 110-113): add
every one-step successor of the snapshot to the copy. -/
def reachStep (dfa : DFA) (z : List St) : List St :=
  z.foldl (fun acc s => ((succPairs dfa s).map (fun q => q.2)).foldl insertIfAbsent acc) z

/-- Every target appearing in the transition dict; the only values the
reachability round can add. -/
def tfTargets (dfa : DFA) : List St :=
  dfa.transition_function.flatMap (fun p => p.2.map (fun q => q.2))

/-- The `while` loop of `DFA.reachable` run to its fixpoint. The fuel only
bounds the rounds: a round short of the fixpoint adds at least one target
not yet present, and rounds only add elements of `tfTargets`, so
`(tfTargets dfa).length + 1` rounds always reach the fixpoint, exactly like
the unbounded Python loop. -/
def reachFixAux (dfa : DFA) : Nat → List St → List St
  | 0, z => z
  | Nat.succ n, z =>
    let z2 := reachStep dfa z
    if z2 == z then z else reachFixAux dfa n z2

/-- The transition dict restricted to a state list (lines 116-123 and
146-153): keep an edge when its source is listed and its target is too. -/
def restrictTF (dfa : DFA) (z : List St) : List (St × List (Sym × St)) :=
  z.foldl (fun acc s =>
    (succPairs dfa s).foldl (fun acc2 q =>
      if z.contains q.2 then tfInsert acc2 s q.1 q.2 else acc2) acc) []

/-- `DFA.reachable` (lines 100-127): forward fixpoint seeded (without any
presence test) with `initial_state`, restriction of the transition dict,
accepting states cut down to the reachable ones, same initial state. -/
def DFA.reachable (dfa : DFA) : Except Err DFA :=
  let z := reachFixAux dfa ((tfTargets dfa).length + 1) [dfa.initial_state]
  mkDFA dfa.alphabet z dfa.initial_state
    (z.filter (fun s => dfa.accepting_states.contains s)) (restrictTF dfa z)

/-- One round of `DFA.coreachable`'s fixpoint (lines 138-143): scan the
states in order and add any whose some transition lands in the set built so
far; the membership test reads the growing copy `z_next`, so states added
earlier in the very same round already count. -/
def coreachStep (dfa : DFA) (z : List St) : List St :=
  dfa.states.foldl (fun acc s =>
    if (succPairs dfa s).any (fun q => acc.contains q.2)
    then insertIfAbsent acc s else acc) z

/-- The `while` loop of `DFA.coreachable` run to its fixpoint. The fuel
only bounds the rounds: a round short of the fixpoint adds at least one
state from `dfa.states` not yet present, so `dfa.states.length + 1` rounds
always reach the fixpoint, exactly like the unbounded Python loop. -/
def coreachFixAux (dfa : DFA) : Nat → List St → List St
  | 0, z => z
  | Nat.succ n, z =>
    let z2 := coreachStep dfa z
    if z2 == z then z else coreachFixAux dfa n z2

/-- `DFA.coreachable` (lines 129-159): backward fixpoint seeded with
`set(accepting_states)`, restriction of the transition dict, the initial
state replaced by `None` when it fell out, and the accepting states passed
through unchanged. -/
def DFA.coreachable (dfa : DFA) : Except Err DFA :=
  let z := coreachFixAux dfa (dfa.states.length + 1) dfa.accepting_states.dedup
  mkDFA dfa.alphabet z
    (if z.contains dfa.initial_state then dfa.initial_state else St.nil)
    dfa.accepting_states (restrictTF dfa z)

/-- `DFA.trim` (lines 163-167): `coreachable` after `reachable`. -/
def DFA.trim (dfa : DFA) : Except Err DFA := do
  let d1 ← DFA.reachable dfa
  DFA.coreachable d1

/-- `DFA.word_acceptance`, the loop body (lines 172-178): Python indexes
`transition_function[current_state]` first, so a current state with no
entry raises `KeyError`; a present state whose inner dict lacks the symbol
returns `False`; after the word, membership in the accepting states. -/
def waGo (dfa : DFA) : St → List Sym → Except Err Bool
  | cur, [] => Except.ok (dfa.accepting_states.contains cur)
  | cur, c :: rest =>
    match dfa.transition_function.lookup cur with
    | none => Except.error Err.keyError
    | some m =>
      match m.lookup c with
      | none => Except.ok false
      | some nxt => waGo dfa nxt rest

/-- `DFA.word_acceptance` (lines 170-178): the `assert` that every symbol
of the word is in the alphabet, then the run from `initial_state`. -/
def DFA.word_acceptance (dfa : DFA) (word : List Sym) : Except Err Bool :=
  if word.all (fun c => dfa.alphabet.contains c) then waGo dfa dfa.initial_state word
  else Except.error Err.assertionError

/-- A well-formed DFA over alphabet `{0, 1}`: states `0`, `1`, `2` with
initial state `2`, accepting set `{0}`, every state with an outgoing
entry, and both of state `1`'s transitions landing on the falsy state `0`.
The word `[1, 0]` gets stuck at state `2` (no entry for symbol `1` in its
inner dict), so the original DFA rejects it. -/
def dfaC1 : DFA := DFA.mk [0, 1] [St.i 0, St.i 1, St.i 2] (St.i 2) [St.i 0]
  [(St.i 0, [(0, St.i 0), (1, St.i 0)]),
   (St.i 1, [(0, St.i 0), (1, St.i 0)]),
   (St.i 2, [(0, St.i 1)])]

/-- A well-formed one-state DFA with an empty transition dict. -/
def dfaC3 : DFA := DFA.mk [0] [St.i 1] (St.i 1) [] []

/-- A well-formed DFA whose state `2` has no transition entry at all. -/
def dfaC4 : DFA := DFA.mk [0] [St.i 1, St.i 2] (St.i 1) [St.i 2] [(St.i 1, [(0, St.i 2)])]

/-- A well-formed DFA whose initial state is absent (Python `None`). -/
def dfaC5 : DFA := DFA.mk [0] [St.i 1] St.nil [] []

/-- `DFA.complete dfaC3` evaluates to this DFA (one fresh sink added). -/
def d1W : DFA := DFA.mk [0] [St.i 1, St.sk 0] (St.i 1) [] []

/-- `DFA.complete d1W` evaluates to this DFA (a second fresh sink added). -/
def d2W : DFA := DFA.mk [0] [St.i 1, St.sk 0, St.sk 1] (St.i 1) [] []

theorem mkDFA_ok {A : List Sym} {S : List St} {s0 : St} {acc : List St}
    {tf : List (St × List (Sym × St))} {d : DFA}
    (h : mkDFA A S s0 acc tf = Except.ok d) : d = DFA.mk A S s0 acc tf := by
  unfold mkDFA at h
  cases hc : check_input A S s0 acc tf with
  | ok u => rw [hc] at h; injection h with h2; exact h2.symm
  | error e => rw [hc] at h; simp at h

theorem hasKey_append {α β : Type} [BEq α] [LawfulBEq α] (m m2 : List (α × β)) (a : α) :
    hasKey (m ++ m2) a = (hasKey m a || hasKey m2 a) := by
  unfold hasKey
  rw [List.lookup_append]
  cases h : m.lookup a <;> rfl

theorem hasKey_map_const {α β : Type} [BEq α] [LawfulBEq α] (l : List α) (s : β) (a : α)
    (ha : a ∈ l) : hasKey (l.map (fun x => (x, s))) a = true := by
  induction l with
  | nil => cases ha
  | cons x rest ih =>
    rw [List.map_cons]
    unfold hasKey List.lookup
    cases hax : a == x with
    | true => simp [hax]
    | false =>
      have hne : ¬ a = x := by intro he; subst he; simp at hax
      have h : a ∈ rest := by
        rcases List.mem_cons.mp ha with h1 | h1
        · exact absurd h1 hne
        · exact h1
      simpa [hasKey, hax] using ih h

theorem complete_fields {dfa d : DFA} (h : DFA.complete dfa = Except.ok d) :
    d = DFA.mk dfa.alphabet (dfa.states ++ [freshSink dfa.states]) dfa.initial_state
      dfa.accepting_states
      (dfa.transition_function.map (fun p =>
        (p.1, p.2 ++ (dfa.alphabet.filter (fun a => !(hasKey p.2 a))).map
          (fun a => (a, freshSink dfa.states))))) := by
  unfold DFA.complete at h
  exact mkDFA_ok h

theorem complete_total {dfa d : DFA} (h : DFA.complete dfa = Except.ok d) :
    ∀ p ∈ d.transition_function, ∀ a ∈ d.alphabet, hasKey p.2 a = true := by
  rw [complete_fields h]
  intro p hp a ha
  rcases List.mem_map.mp hp with ⟨q, hq, rfl⟩
  rw [hasKey_append]
  cases hk : hasKey q.2 a with
  | true => simp
  | false =>
    have hmem : a ∈ dfa.alphabet.filter (fun a => !(hasKey q.2 a)) := by
      rw [List.mem_filter]
      exact ⟨ha, by rw [hk]; rfl⟩
    rw [hasKey_map_const _ _ _ hmem]
    simp

theorem complete_of_total {d1 d2 : DFA}
    (htot : ∀ p ∈ d1.transition_function, ∀ a ∈ d1.alphabet, hasKey p.2 a = true)
    (h : DFA.complete d1 = Except.ok d2) :
    d2 = DFA.mk d1.alphabet (d1.states ++ [freshSink d1.states]) d1.initial_state
      d1.accepting_states d1.transition_function := by
  rw [complete_fields h]
  have htf : d1.transition_function.map (fun p =>
      (p.1, p.2 ++ (d1.alphabet.filter (fun a => !(hasKey p.2 a))).map
        (fun a => (a, freshSink d1.states)))) = d1.transition_function := by
    have hfil : ∀ p ∈ d1.transition_function,
        d1.alphabet.filter (fun a => !(hasKey p.2 a)) = [] := by
      intro p hp
      rw [List.filter_eq_nil_iff]
      intro a ha
      rw [htot p hp a ha]
      simp
    calc d1.transition_function.map (fun p =>
          (p.1, p.2 ++ (d1.alphabet.filter (fun a => !(hasKey p.2 a))).map
            (fun a => (a, freshSink d1.states))))
        = d1.transition_function.map (fun p => p) := by
          apply List.map_congr_left
          intro p hp
          rw [hfil p hp]
          simp
      _ = d1.transition_function := List.map_id' _
  rw [htf]

theorem waGo_congr {d e : DFA} (hacc : d.accepting_states = e.accepting_states)
    (htf : d.transition_function = e.transition_function) :
    ∀ (w : List Sym) (cur : St), waGo d cur w = waGo e cur w := by
  intro w
  induction w with
  | nil => intro cur; simp [waGo, hacc]
  | cons c rest ih =>
    intro cur
    unfold waGo
    rw [htf]
    cases h1 : e.transition_function.lookup cur with
    | none => rfl
    | some m =>
      cases h2 : m.lookup c with
      | none => simp [h2]
      | some nxt => simpa [h2] using ih nxt

theorem word_acceptance_congr {d e : DFA} (halph : d.alphabet = e.alphabet)
    (hinit : d.initial_state = e.initial_state)
    (hacc : d.accepting_states = e.accepting_states)
    (htf : d.transition_function = e.transition_function) (w : List Sym) :
    d.word_acceptance w = e.word_acceptance w := by
  unfold DFA.word_acceptance
  rw [halph, hinit]
  by_cases h : w.all (fun c => e.alphabet.contains c) = true
  · rw [if_pos h, if_pos h]
    exact waGo_congr hacc htf w e.initial_state
  · rw [if_neg h, if_neg h]

theorem sk_mem_lt {l : List St} {k : Nat} (h : St.sk k ∈ l) : k < sinkIdBound l := by
  induction l with
  | nil => cases h
  | cons x rest ih =>
    rcases List.mem_cons.mp h with h1 | h1
    · subst h1
      unfold sinkIdBound
      exact lt_of_lt_of_le (Nat.lt_succ_self k) (le_max_left _ _)
    · have hlt := ih h1
      cases x with
      | i n => simpa [sinkIdBound] using hlt
      | sk k2 => exact lt_of_lt_of_le hlt (by simp [sinkIdBound])
      | nil => simpa [sinkIdBound] using hlt

theorem freshSink_not_mem (l : List St) : freshSink l ∉ l := by
  intro h
  exact absurd (sk_mem_lt h) (lt_irrefl _)

theorem complete_targets {dfa d : DFA} (hv : Valid dfa)
    (h : DFA.complete dfa = Except.ok d) : ∀ x ∈ tfTargets d, x ∈ d.states := by
  have hd := complete_fields h
  intro x hx
  rw [hd] at hx
  unfold tfTargets at hx
  simp only at hx
  rcases List.mem_flatMap.mp hx with ⟨p, hp, hxp⟩
  rcases List.mem_map.mp hp with ⟨q, hq, rfl⟩
  simp only at hxp
  rcases List.mem_map.mp hxp with ⟨e, he, rfl⟩
  rcases List.mem_append.mp he with h1 | h1
  · have := (hv.2.2 q hq).2 e h1
    rw [hd]
    simp only [List.mem_append]
    exact Or.inl this.2
  · rcases List.mem_map.mp h1 with ⟨a, ha, rfl⟩
    rw [hd]
    simp

theorem waGo_ne_assertionError (dfa : DFA) (w : List Sym) :
    ∀ cur, waGo dfa cur w ≠ Except.error Err.assertionError := by
  induction w with
  | nil => intro cur; simp [waGo]
  | cons c rest ih =>
    intro cur
    unfold waGo
    cases h1 : dfa.transition_function.lookup cur with
    | none => simp
    | some m =>
      cases h2 : m.lookup c with
      | none => simp [h2]
      | some nxt => simpa [h2] using ih nxt

/-- C1: the claim fails on the code. `dfaC1` is well-formed and every
symbol of `[1, 0]` is in its alphabet, yet the original DFA rejects
`[1, 0]` while `minimize(dfaC1)` accepts it: `minimize`'s truthiness test
`if s_prime:` skips the distinguishability check whenever a successor is
the falsy state `0`, so state `1` is merged with the (transition-less)
sink, and the merged class inherits state `1`'s transitions into the
accepting state. -/
theorem c1_minimize_changes_language :
    Valid dfaC1 ∧ dfaC1.word_acceptance [1, 0] = Except.ok false ∧
    (DFA.minimize dfaC1 >>= fun d => d.word_acceptance [1, 0]) = Except.ok true :=
  ⟨by decide, rfl, rfl⟩

/-- C2: the claim fails on the code. A transition whose symbol `1` is not
in the alphabet `[0]` (but whose target is a known state) passes
`_check_input`, because line 34 tests `sym not in alphabet AND next_state
not in states` instead of rejecting each broken reference on its own, so
the constructor succeeds where the claim demands a validation error. -/
theorem c2_check_input_accepts_bad_symbol :
    (1 : Sym) ∉ ([0] : List Sym) ∧
    mkDFA [0] [St.i 1] (St.i 1) [] [(St.i 1, [(1, St.i 1)])] =
      Except.ok (DFA.mk [0] [St.i 1] (St.i 1) [] [(St.i 1, [(1, St.i 1)])]) :=
  ⟨by decide, rfl⟩

/-- C3: the claim fails on the code. `complete` only iterates over states
that already have a transition entry, so the added sink (and any state
without an entry) gets no outgoing transitions at all: on `dfaC3` the sink
is in the completed state set but `(sink, 0)` has no successor even though
`0` is an alphabet symbol, so the result is not total and the sink does
not loop to itself. -/
theorem c3_complete_sink_undefined :
    DFA.complete dfaC3 = Except.ok d1W ∧
    freshSink dfaC3.states ∈ d1W.states ∧
    (0 : Sym) ∈ d1W.alphabet ∧
    tfGet d1W.transition_function (freshSink dfaC3.states) 0 = none :=
  ⟨rfl, by decide, by decide, rfl⟩

/-- C4: the claim fails on the code. `dfaC4` is well-formed with a present
initial state, the word `[0, 0]` is over its alphabet, and after one step
the run is at state `2`, which has no defined transition for the next
symbol; the claim says the run returns `false`, but the code indexes
`transition_function[current_state]` first and raises `KeyError`. -/
theorem c4_word_acceptance_keyerror :
    Valid dfaC4 ∧ dfaC4.word_acceptance [0, 0] = Except.error Err.keyError :=
  ⟨by decide, rfl⟩

/-- C5: the claim fails on the code. `dfaC5` is well-formed with an absent
initial state, but `minimize` evaluates
`state2equiv_class[dfa.initial_state]` with `None` as the key and raises
`KeyError`, so not every transformation succeeds on every well-formed
DFA. -/
theorem c5_minimize_raises_on_absent_initial :
    Valid dfaC5 ∧ DFA.minimize dfaC5 = Except.error Err.keyError :=
  ⟨by decide, rfl⟩

/-- C6: the claim fails on the code. On the well-formed `dfaC5`, whose
initial state is absent, `reachable` seeds its fixpoint with
`initial_state` without testing presence, so the resulting state set is
the singleton holding the `None` marker rather than the empty set the
claim demands. -/
theorem c6_reachable_not_empty :
    Valid dfaC5 ∧ dfaC5.initial_state = St.nil ∧
    DFA.reachable dfaC5 = Except.ok (DFA.mk [0] [St.nil] St.nil [] []) ∧
    (DFA.mk [0] [St.nil] St.nil [] []).states ≠ [] :=
  ⟨by decide, rfl, rfl, by decide⟩

/-- C7: word acceptance fails with the out-of-alphabet error (the `assert`
on entry, `AssertionError` in Python, named `OutOfAlphabet` by the spec)
exactly when some symbol of the word is outside the DFA's alphabet; when
every symbol is in the alphabet that error is never produced. -/
theorem c7_out_of_alphabet_iff (dfa : DFA) (w : List Sym) :
    dfa.word_acceptance w = Except.error Err.assertionError ↔
    ¬ ∀ c ∈ w, c ∈ dfa.alphabet := by
  unfold DFA.word_acceptance
  by_cases h : w.all (fun c => dfa.alphabet.contains c) = true
  · rw [if_pos h]
    constructor
    · intro hcon; exact absurd hcon (waGo_ne_assertionError dfa w dfa.initial_state)
    · intro hneg
      exfalso
      apply hneg
      intro c hc
      have := List.all_eq_true.mp h c hc
      simpa [List.elem_iff] using this
  · rw [if_neg h]
    constructor
    · intro _ hall
      apply h
      rw [List.all_eq_true]
      intro c hc
      simpa [List.elem_iff] using hall c hc
    · intro _; rfl

/-- C7 witness: on `dfaC4` (alphabet `[0]`) the word `[5]` carries an
out-of-alphabet symbol and acceptance fails with the assertion error. -/
theorem c7_out_of_alphabet_iff_witness :
    dfaC4.word_acceptance [5] = Except.error Err.assertionError :=
  (c7_out_of_alphabet_iff dfaC4 [5]).mpr (by decide)

/-- C8: completion is idempotent in the claim's sense. Completing once
makes every listed state total on the alphabet, so a second completion
adds no transition: the twice-completed DFA has the same alphabet, initial
state, accepting states and transition dict as the once-completed one,
hence accepts exactly the same words, and the second sink is the target of
no transition — it is neither reachable nor used. -/
theorem c8_complete_idempotent (dfa d1 d2 : DFA) (hv : Valid dfa)
    (h1 : DFA.complete dfa = Except.ok d1) (h2 : DFA.complete d1 = Except.ok d2) :
    (∀ w, d2.word_acceptance w = d1.word_acceptance w) ∧
    freshSink d1.states ∉ tfTargets d2 := by
  have htot := complete_total h1
  have hd2 := complete_of_total htot h2
  constructor
  · intro w
    apply word_acceptance_congr
    · rw [hd2]
    · rw [hd2]
    · rw [hd2]
    · rw [hd2]
  · have htargets : tfTargets d2 = tfTargets d1 := by
      unfold tfTargets
      rw [hd2]
    rw [htargets]
    intro hmem
    have hsub := complete_targets hv h1
    exact freshSink_not_mem d1.states (hsub _ hmem)

/-- C8 witness: the hypotheses hold concretely for `dfaC3`, whose single
and double completions are `d1W` and `d2W`. -/
theorem c8_complete_idempotent_witness :
    (∀ w, d2W.word_acceptance w = d1W.word_acceptance w) ∧
    freshSink d1W.states ∉ tfTargets d2W :=
  c8_complete_idempotent dfaC3 d1W d2W (by decide) rfl rfl

/-- C10: on the empty word acceptance never consults the transition dict:
it returns exactly the membership of the initial state in the accepting
states; and on a well-formed DFA whose initial state is absent (the `None`
marker, which is not a state) it returns `false` without raising. -/
theorem c10_empty_word (dfa : DFA) :
    dfa.word_acceptance [] = Except.ok (dfa.accepting_states.contains dfa.initial_state) ∧
    (dfa.initial_state = St.nil → (∀ s ∈ dfa.accepting_states, s ∈ dfa.states) →
      St.nil ∉ dfa.states → dfa.word_acceptance [] = Except.ok false) := by
  refine ⟨rfl, ?_⟩
  intro h1 h2 h3
  have hc : dfa.accepting_states.contains St.nil = false := by
    by_contra hcon
    rw [Bool.not_eq_false] at hcon
    have hmem : St.nil ∈ dfa.accepting_states := by simpa [List.elem_iff] using hcon
    exact h3 (h2 _ hmem)
  have he : dfa.word_acceptance [] =
      Except.ok (dfa.accepting_states.contains dfa.initial_state) := rfl
  rw [he, h1, hc]

/-- C10 witness: the hypotheses hold concretely for `dfaC5`, whose initial
state is absent, and acceptance of the empty word is `false`. -/
theorem c10_empty_word_witness : dfaC5.word_acceptance [] = Except.ok false :=
  (c10_empty_word dfaC5).2 rfl (by decide) (by decide)

end Pythogic
